import Mathlib

/-!
Shallow embedding of the devnet orchestration engine in `honey.py`
(vfat-io/sugar-sdk): configuration loading (port assignment), balance
checking and parsing, the funding orchestrator with its retry loop, the
balance aggregator, and the simulator readiness/shutdown control flow.

External subprocess calls are modelled by environments: a value of type
`CallOutcome` describes what one `subprocess.run` invocation did (raised
an exception, or completed with an exit code, stdout and stderr), and a
function `Nat → CallOutcome` supplies the outcome of the i-th call.
Python strings are modelled as `String` / `List Char`; Python floats in
the retry-delay computation are modelled as `ℚ` (the values reached,
2 · 1.5^k for k ≤ 3, are exact in binary floating point, so `ℚ` is a
faithful model of the delays the code computes).
-/

namespace Honey

/-- Python's `str.strip()` on a list of characters: drop whitespace from
both ends. -/
def strip (l : List Char) : List Char :=
  ((l.dropWhile Char.isWhitespace).reverse.dropWhile Char.isWhitespace).reverse

/-- Value of a list of decimal digit characters (most significant first). -/
def digitsVal (l : List Char) : Nat :=
  l.foldl (fun a c => a * 10 + (c.toNat - 48)) 0

/-- Parse a nonempty all-digit character list; `none` otherwise. -/
def digitsNat (l : List Char) : Option Nat :=
  if l ≠ [] ∧ l.all Char.isDigit then some (digitsVal l) else none

/-- Python's `int(s)` on a decimal string: strip whitespace, allow one
leading sign, then require nonempty digits; raising `ValueError` is
modelled as `none`. (Underscore digit grouping is not modelled; the
program only ever feeds this function outputs of the external chain
client.) -/
def pyInt (l : List Char) : Option Int :=
  match strip l with
  | [] => none
  | c :: cs =>
    if c = '-' then (digitsNat cs).map (fun n => -(n : Int))
    else if c = '+' then (digitsNat cs).map (fun n => (n : Int))
    else (digitsNat (c :: cs)).map (fun n => (n : Int))

/-- Outcome of one `subprocess.run` invocation: the call raised
(e.g. `TimeoutExpired`), or completed with exit code, stdout, stderr. -/
inductive CallOutcome where
  | raised : CallOutcome
  | completed (returncode : Int) (stdout : String) (stderr : String) : CallOutcome
deriving DecidableEq

/-- The call failed outright: it raised, or exited non-zero. -/
def queryFailed : CallOutcome → Bool
  | .raised => true
  | .completed rc _ _ => rc != 0

/-- `balance_str.split('[')[0].strip()` applied when a `[` is present:
the bracketed exponential annotation of `cast` output is discarded and
only the integer prefix kept (lines 150-152 of `honey.py`). -/
def bracketStrip (l : List Char) : List Char :=
  if l.contains '[' then strip (l.takeWhile (fun c => c ≠ '[')) else l

/-- `check_token_balance` (honey.py lines 139-159), as a function of the
outcome of its single `cast call`: on exit 0 the stripped stdout, with
any bracketed annotation removed, is parsed with `int`; a parse error is
caught by the surrounding `except` and yields 0; a non-zero exit or a
raised call also yields 0. -/
def check_token_balance (res : CallOutcome) : Int :=
  match res with
  | .raised => 0
  | .completed rc out _ =>
    if rc = 0 then
      match pyInt (bracketStrip (strip out.data)) with
      | some n => n
      | none => 0
    else 0

/-- `check_eth_balance` (honey.py lines 123-137): on exit 0 the stripped
stdout is parsed with `int` (a parse error is caught and yields `none`);
a non-zero exit or raised call yields `none` ("Failed"). -/
def check_eth_balance (res : CallOutcome) : Option Int :=
  match res with
  | .raised => none
  | .completed rc out _ =>
    if rc = 0 then pyInt (strip out.data)
    else none

/-- Python string comparison: lexicographic on code points, as ≤ on
character lists. This is the order `results.sort(key=lambda x: x[0])`
sorts chain names by. -/
def charsLe : List Char → List Char → Bool
  | [], _ => true
  | _ :: _, [] => false
  | a :: as, b :: bs => if a = b then charsLe as bs else decide (a < b)

theorem charsLe_total : ∀ x y : List Char, charsLe x y = true ∨ charsLe y x = true := by
  intro x
  induction x with
  | nil => intro y; left; rfl
  | cons a as ih =>
    intro y
    cases y with
    | nil => right; rfl
    | cons b bs =>
      by_cases hab : a = b
      · subst hab
        rcases ih bs with h | h
        · left; simp [charsLe, h]
        · right; simp [charsLe, h]
      · rcases lt_or_gt_of_ne hab with h | h
        · left; simp [charsLe, hab, h]
        · right; simp [charsLe, Ne.symm hab, h, not_lt.mpr (le_of_lt h)]

theorem charsLe_trans : ∀ x y z : List Char, charsLe x y = true →
    charsLe y z = true → charsLe x z = true := by
  intro x
  induction x with
  | nil => intro y z _ _; rfl
  | cons a as ih =>
    intro y z hxy hyz
    cases y with
    | nil => simp [charsLe] at hxy
    | cons b bs =>
      cases z with
      | nil => simp [charsLe] at hyz
      | cons c cs =>
        by_cases hab : a = b <;> by_cases hbc : b = c
        · subst hab; subst hbc
          simp_all [charsLe]
          exact ih _ _ hxy hyz
        · subst hab
          simp_all [charsLe]
        · subst hbc
          simp_all [charsLe]
        · simp [charsLe, hab] at hxy
          simp [charsLe, hbc] at hyz
          by_cases hac : a = c
          · subst hac; exact absurd (lt_trans hxy hyz) (lt_irrefl a)
          · simp [charsLe, hac]
            exact lt_trans hxy hyz

theorem charsLe_antisymm : ∀ x y : List Char, charsLe x y = true →
    charsLe y x = true → x = y := by
  intro x
  induction x with
  | nil =>
    intro y _ h
    cases y with
    | nil => rfl
    | cons b bs => simp [charsLe] at h
  | cons a as ih =>
    intro y hxy hyx
    cases y with
    | nil => simp [charsLe] at hxy
    | cons b bs =>
      by_cases hab : a = b
      · subst hab
        simp_all [charsLe]
        exact ih _ hxy hyx
      · simp [charsLe, hab] at hxy
        simp [charsLe, Ne.symm hab] at hyx
        exact absurd (lt_trans hxy hyx) (lt_irrefl a)

/-- Token balance configuration entry of `honey.yaml` (honey.py line 19-22). -/
structure TokenBalance where
  token : String
  address : String
  amount : Int
  holder : String
deriving DecidableEq

/-- Chain configuration (honey.py line 24-27). -/
structure ChainConfig where
  name : String
  id : String
  balance : List TokenBalance
  port : Nat
deriving DecidableEq

/-- One entry of the `chains:` list of `honey.yaml`, before
`Honey.from_config` filters and numbers it. -/
structure RawChain where
  name : String
  id : String
  balance : List TokenBalance
deriving DecidableEq

/-- The chain-extraction loop of `Honey.from_config` (honey.py lines
51-68): entries with a truthy (nonempty) name are appended to the
accumulator with `port = starting_port + len(chains_list)` evaluated at
append time. -/
def buildChainsGo (startingPort : Nat) (acc : List ChainConfig) :
    List RawChain → List ChainConfig
  | [] => acc
  | r :: rs =>
    if r.name ≠ "" then
      buildChainsGo startingPort
        (acc ++ [⟨r.name, r.id, r.balance, startingPort + acc.length⟩]) rs
    else
      buildChainsGo startingPort acc rs

/-- The chain list produced by `Honey.from_config` for a given starting
port and raw `chains:` list. -/
def fromConfigChains (startingPort : Nat) (raw : List RawChain) : List ChainConfig :=
  buildChainsGo startingPort [] raw

/-- One row of the balance report: the `(chain_name, eth_str, token_str)`
tuple returned by `check_chain_balances` (honey.py line 263). -/
structure ChainRes where
  name : String
  eth : String
  tok : String
deriving DecidableEq

/-- The sort key relation of `results.sort(key=lambda x: x[0])`:
compare rows by chain name, Python string order. -/
def resLe (a b : ChainRes) : Prop := charsLe a.name.data b.name.data = true

instance : DecidableRel resLe := fun a b =>
  inferInstanceAs (Decidable (charsLe a.name.data b.name.data = true))

instance : IsTotal ChainRes resLe := ⟨fun a b => charsLe_total a.name.data b.name.data⟩

instance : IsTrans ChainRes resLe :=
  ⟨fun a b c h1 h2 => charsLe_trans a.name.data b.name.data c.name.data h1 h2⟩

/-- The token loop of `check_chain_balances` (honey.py lines 254-257):
query each configured token in order; keep `f"{balance} {token}"` lines
only for strictly positive balances. The environment gives the outcome
of the query for the token at each position. -/
def tokenLines : List TokenBalance → (Nat → CallOutcome) → Nat → List String
  | [], _, _ => []
  | tb :: rest, env, i =>
    (if 0 < check_token_balance (env i)
     then [toString (check_token_balance (env i)) ++ " " ++ tb.token]
     else []) ++ tokenLines rest env (i + 1)

/-- `check_chain_balances` (honey.py lines 247-263) as a function of the
chain configuration and the outcomes of its external calls. -/
def check_chain_balances (chain : ChainConfig) (ethRes : CallOutcome)
    (tokRes : Nat → CallOutcome) : ChainRes :=
  let ethStr :=
    match check_eth_balance ethRes with
    | some b => toString b ++ " ETH"
    | none => "Failed"
  let toks := tokenLines chain.balance tokRes 0
  ⟨chain.name, ethStr, if toks = [] then "" else ", " ++ String.intercalate ", " toks⟩

/-- The rows produced by submitting `check_chain_balances` for every
configured chain in order (honey.py lines 268-270); the environments
give each chain index its native-balance and token-query outcomes. -/
def chainResultsGo (ethEnv : Nat → CallOutcome) (tokEnv : Nat → Nat → CallOutcome) :
    List ChainConfig → Nat → List ChainRes
  | [], _ => []
  | c :: cs, i =>
    check_chain_balances c (ethEnv i) (tokEnv i) :: chainResultsGo ethEnv tokEnv cs (i + 1)

/-- See `chainResultsGo`. -/
def chain_results (chains : List ChainConfig) (ethEnv : Nat → CallOutcome)
    (tokEnv : Nat → Nat → CallOutcome) : List ChainRes :=
  chainResultsGo ethEnv tokEnv chains 0

/-- The buffering-and-sorting step of `check_token_balances_all_chains`
(honey.py lines 272-282): collected rows, in whatever completion order,
are sorted by chain name before being logged. Python's stable `sort` is
modelled by insertion sort, which is also stable. -/
def aggregateEmit (completed : List ChainRes) : List ChainRes :=
  completed.insertionSort resLe

theorem sorted_perm_nodup_eq : ∀ {l₁ : List ChainRes} {l₂ : List ChainRes},
    l₁.Perm l₂ → List.Sorted resLe l₁ → List.Sorted resLe l₂ →
    (l₁.map ChainRes.name).Nodup → l₁ = l₂ := by
  intro l₁
  induction l₁ with
  | nil =>
    intro l₂ hp _ _ _
    exact (List.Perm.eq_nil hp.symm).symm
  | cons a t ih =>
    intro l₂ hp hs₁ hs₂ hn
    cases l₂ with
    | nil => exact absurd (List.Perm.eq_nil hp) (by simp)
    | cons b t₂ =>
      by_cases hab : a = b
      · subst hab
        have ht : t.Perm t₂ := hp.cons_inv
        have htl : t = t₂ := by
          apply ih ht hs₁.of_cons hs₂.of_cons
          have h : (a.name :: t.map ChainRes.name).Nodup := by simpa using hn
          exact h.of_cons
        rw [htl]
      · have hbmem : b ∈ a :: t := hp.symm.mem_iff.mp (List.mem_cons_self b t₂)
        have hb_t : b ∈ t := by
          rcases List.mem_cons.mp hbmem with h | h
          · exact absurd h.symm hab
          · exact h
        have hamem : a ∈ b :: t₂ := hp.mem_iff.mp (List.mem_cons_self a t)
        have ha_t2 : a ∈ t₂ := by
          rcases List.mem_cons.mp hamem with h | h
          · exact absurd h hab
          · exact h
        have h1 : resLe a b := List.rel_of_sorted_cons hs₁ b hb_t
        have h2 : resLe b a := List.rel_of_sorted_cons hs₂ a ha_t2
        have hname : a.name = b.name := String.ext (charsLe_antisymm _ _ h1 h2)
        have hnin : a.name ∉ t.map ChainRes.name :=
          (List.nodup_cons.mp (by simpa using hn)).1
        exact absurd (hname ▸ List.mem_map_of_mem ChainRes.name hb_t) hnin

theorem buildChainsGo_ports (P : Nat) :
    ∀ (raw : List RawChain) (acc : List ChainConfig),
      acc.map ChainConfig.port = List.range' P acc.length →
      (buildChainsGo P acc raw).map ChainConfig.port =
        List.range' P (buildChainsGo P acc raw).length := by
  intro raw
  induction raw with
  | nil => intro acc h; simpa [buildChainsGo] using h
  | cons r rs ih =>
    intro acc h
    by_cases hn : r.name ≠ ""
    · simp only [buildChainsGo, if_pos hn]
      apply ih
      have hlen : (acc ++ [(⟨r.name, r.id, r.balance, P + acc.length⟩ : ChainConfig)]).length
          = acc.length + 1 := by simp
      rw [hlen, List.range'_1_concat, List.map_append, h]
      simp
    · simp only [buildChainsGo, if_neg hn]
      exact ih acc h

/-- Does the first list occur as an initial segment of the second? -/
def leadsWith : List Char → List Char → Bool
  | [], _ => true
  | _ :: _, [] => false
  | p :: ps, c :: cs => p = c && leadsWith ps cs

/-- Does the pattern occur as a contiguous sublist? -/
def hasSub (pat : List Char) : List Char → Bool
  | [] => leadsWith pat []
  | c :: cs => leadsWith pat (c :: cs) || hasSub pat cs

/-- Python's `pat in s` substring test. -/
def strContains (s pat : String) : Bool := hasSub pat.data s.data

/-- The contention check of honey.py line 209: the transfer stderr
mentions `replacement transaction underpriced` or `underpriced`. -/
def isUnderpriced (msg : String) : Bool :=
  strContains msg "replacement transaction underpriced" || strContains msg "underpriced"

/-- One funding request dict (honey.py lines 163-176): token address,
chain name, amount string, holder address. -/
structure Request where
  token : String
  chain : String
  amount : String
  holder : String
deriving DecidableEq

/-- What the external calls of one attempt of the retry loop would do:
whether `anvil_impersonateAccount` exits 0, whether `cast send` exits 0,
and the transfer's stderr. -/
structure AttemptEnv where
  impersonateOk : Bool
  transferOk : Bool
  transferStderr : String
deriving DecidableEq

/-- Observable events of one funding task: external calls issued, sleeps
with their delay, and the log lines that classify the outcome. -/
inductive Event where
  | impersonate : Event
  | transfer : Event
  | sleep (d : ℚ) : Event
  | success : Event
  | retryUnderpriced (attempt : Nat) : Event
  | exhaustedUnderpriced : Event
  | nonRetryable : Event
  | retryException (attempt : Nat) : Event
  | exhaustedException : Event
deriving DecidableEq

/-- The retry loop of `process_token_request` (honey.py lines 182-229):
`for attempt in range(max_retries + 1)` with `max_retries = 3` and
`retry_delay = 2.0`. Each iteration impersonates the holder; a non-zero
exit raises, which the `except` handler retries with the current backoff
(or logs and returns on the last attempt). Otherwise the transfer is
sent: exit 0 succeeds; an underpriced stderr retries with backoff while
attempts remain and otherwise logs exhaustion and falls out of the loop;
any other stderr logs and returns immediately. The first argument is the
number of loop iterations left, the second the `attempt` counter, the
third the current `retry_delay`. -/
def attemptGo (env : Nat → AttemptEnv) : Nat → Nat → ℚ → List Event
  | 0, _, _ => []
  | r + 1, attempt, delay =>
    if (env attempt).impersonateOk then
      if (env attempt).transferOk then
        [Event.impersonate, Event.transfer, Event.success]
      else if isUnderpriced (env attempt).transferStderr then
        if attempt < 3 then
          Event.impersonate :: Event.transfer :: Event.retryUnderpriced attempt ::
            Event.sleep delay :: attemptGo env r (attempt + 1) (delay * (3 / 2))
        else
          Event.impersonate :: Event.transfer :: Event.exhaustedUnderpriced ::
            attemptGo env r (attempt + 1) delay
      else
        [Event.impersonate, Event.transfer, Event.nonRetryable]
    else
      if attempt < 3 then
        Event.impersonate :: Event.retryException attempt ::
          Event.sleep delay :: attemptGo env r (attempt + 1) (delay * (3 / 2))
      else
        [Event.impersonate, Event.exhaustedException]

/-- The full trace of one funding task's retry loop: 4 iterations,
`attempt` starting at 0, `retry_delay` starting at 2.0. -/
def fundingTrace (env : Nat → AttemptEnv) : List Event :=
  attemptGo env 4 0 2

/-- `process_token_request` (honey.py lines 171-229): look the chain up
by name (`next(..., None)`); an unknown name raises `ValueError`, which
the embedding returns as `Except.error` with the exception's message;
otherwise the retry loop runs to completion and its trace is returned. -/
def process_token_request (cfg : List ChainConfig) (req : Request)
    (env : Nat → AttemptEnv) : Except String (List Event) :=
  match cfg.find? (fun c => c.name == req.chain) with
  | none => .error ("Chain " ++ req.chain ++ " not found in honey config")
  | some _ => .ok (fundingTrace env)

/-- One future per request, submitted in order (honey.py line 235); the
environment gives each request index its attempt outcomes. -/
def addTokensGo (cfg : List ChainConfig) (envs : Nat → Nat → AttemptEnv) :
    Nat → List Request → List (Except String (List Event))
  | _, [] => []
  | i, req :: rest =>
    process_token_request cfg req (envs i) :: addTokensGo cfg envs (i + 1) rest

/-- `add_tokens_by_address` (honey.py lines 163-240): run every request's
task, collect each future's outcome (`future.result()` re-raises a
task's exception, which the pool catches and logs), and return `None`.
The first component is the return value, the second the per-task
outcomes the pool observed. -/
def add_tokens_by_address (cfg : List ChainConfig) (reqs : List Request)
    (envs : Nat → Nat → AttemptEnv) : Unit × List (Except String (List Event)) :=
  ((), addTokensGo cfg envs 0 reqs)

/-- Success test of one readiness probe (honey.py line 98):
`result.returncode == 0 and result.stdout.strip()` — exit 0 with
nonempty stripped stdout; a raised call (`TimeoutExpired`) is a failed
probe. -/
def probeOk : CallOutcome → Bool
  | .raised => false
  | .completed rc out _ => rc = 0 && strip out.data ≠ []

/-- The polling loop of `check_supersim_ready` (honey.py lines 85-101):
`while time.time() - start_time < timeout_seconds` with a 2-second sleep
after every failed probe and a 60-second deadline. Probes are modelled
as instantaneous, so the i-th iteration runs at elapsed time `2 * i`;
the loop admits iterations while `2 * i < 60`, i.e. probes 0 through 29.
The first argument is the iteration index, the second a fuel bound (31
suffices). -/
def readyGo (probe : Nat → CallOutcome) : Nat → Nat → Bool
  | _, 0 => false
  | i, fuel + 1 =>
    if 2 * i < 60 then
      if probeOk (probe i) then true else readyGo probe (i + 1) fuel
    else false

/-- `check_supersim_ready` with the default 60-second timeout. -/
def check_supersim_ready (probe : Nat → CallOutcome) : Bool :=
  readyGo probe 0 31

/-- The phase of `__main__` (honey.py lines 312-347) during which an
external interrupt can arrive. -/
inductive MainPhase where
  | wallet : MainPhase
  | funding : MainPhase
  | balance : MainPhase
  | waiting : MainPhase
deriving DecidableEq

/-- Externally visible events of a run of `__main__`: phase markers, the
child-process operations, the exit code, and an uncaught exception
escaping the interpreter. -/
inductive RunEvent where
  | phaseFunding : RunEvent
  | phaseBalance : RunEvent
  | terminateChild : RunEvent
  | waitChild : RunEvent
  | exit (code : Nat) : RunEvent
  | uncaught : RunEvent
deriving DecidableEq

/-- Control flow of `run_supersim` and `__main__` (honey.py lines
291-347) as a function of the readiness-probe outcomes and of the phase
(if any) in which a `KeyboardInterrupt` arrives. If readiness times out,
`run_supersim` calls `process.terminate()` and `sys.exit(1)` — with no
wait on the child. Otherwise wallet creation, funding and the balance
check run in order with no exception handler around them, so an
interrupt there escapes uncaught, terminating nothing. Only the final
`process.wait()` sits in a `try` whose `except KeyboardInterrupt`
terminates the child and waits for it. -/
def mainRun (probe : Nat → CallOutcome) (intr : Option MainPhase) : List RunEvent :=
  if check_supersim_ready probe then
    match intr with
    | some .wallet => [.uncaught]
    | some .funding => [.phaseFunding, .uncaught]
    | some .balance => [.phaseFunding, .phaseBalance, .uncaught]
    | some .waiting => [.phaseFunding, .phaseBalance, .terminateChild, .waitChild, .exit 0]
    | none => [.phaseFunding, .phaseBalance, .waitChild, .exit 0]
  else
    [.terminateChild, .exit 1]

/-- Number of `cast send` transfer submissions in a task trace. -/
def countTransfers : List Event → Nat
  | [] => 0
  | .transfer :: tr => 1 + countTransfers tr
  | _ :: tr => countTransfers tr

/-- The delays slept in a task trace, in order. -/
def sleepsOf : List Event → List ℚ
  | [] => []
  | .sleep d :: tr => d :: sleepsOf tr
  | _ :: tr => sleepsOf tr

/-- The geometric delay schedule: `n` delays starting at `d`, each 1.5
times the previous. -/
def geomList (d : ℚ) : Nat → List ℚ
  | 0 => []
  | n + 1 => d :: geomList (d * (3 / 2)) n

theorem countTransfers_attemptGo_le (env : Nat → AttemptEnv) :
    ∀ r a d, countTransfers (attemptGo env r a d) ≤ r := by
  intro r
  induction r with
  | zero => intro a d; simp [attemptGo, countTransfers]
  | succ r ih =>
    intro a d
    simp only [attemptGo]
    split_ifs with h1 h2 h3 h4 h5
    · simp [countTransfers]
    · have h := ih (a + 1) (d * (3 / 2)); simp only [countTransfers]; omega
    · have h := ih (a + 1) d; simp only [countTransfers]; omega
    · simp [countTransfers]
    · have h := ih (a + 1) (d * (3 / 2)); simp only [countTransfers]; omega
    · simp [countTransfers]

theorem sleepsOf_attemptGo_late (env : Nat → AttemptEnv) :
    ∀ r a d, 3 ≤ a → sleepsOf (attemptGo env r a d) = [] := by
  intro r
  induction r with
  | zero => intro a d _; simp [attemptGo, sleepsOf]
  | succ r ih =>
    intro a d ha
    simp only [attemptGo]
    split_ifs with h1 h2 h3 h4 h5
    · simp [sleepsOf]
    · omega
    · simp only [sleepsOf]; exact ih (a + 1) d (by omega)
    · simp [sleepsOf]
    · omega
    · simp [sleepsOf]

theorem sleepsOf_attemptGo_sched (env : Nat → AttemptEnv) :
    ∀ r a d, ∃ t, sleepsOf (attemptGo env r a d) ++ t = geomList d (3 - a) := by
  intro r
  induction r with
  | zero => intro a d; exact ⟨geomList d (3 - a), by simp [attemptGo, sleepsOf]⟩
  | succ r ih =>
    intro a d
    simp only [attemptGo]
    split_ifs with h1 h2 h3 h4 h5
    · exact ⟨geomList d (3 - a), by simp [sleepsOf]⟩
    · obtain ⟨t, ht⟩ := ih (a + 1) (d * (3 / 2))
      refine ⟨t, ?_⟩
      have h30 : 3 - a = (3 - (a + 1)) + 1 := by omega
      rw [h30]
      simp only [sleepsOf, geomList, List.cons_append]
      rw [ht]
    · have hz : sleepsOf (attemptGo env r (a + 1) d) = [] :=
        sleepsOf_attemptGo_late env r (a + 1) d (by omega)
      have h30 : 3 - a = 0 := by omega
      exact ⟨[], by simp [sleepsOf, hz, h30, geomList]⟩
    · exact ⟨geomList d (3 - a), by simp [sleepsOf]⟩
    · obtain ⟨t, ht⟩ := ih (a + 1) (d * (3 / 2))
      refine ⟨t, ?_⟩
      have h30 : 3 - a = (3 - (a + 1)) + 1 := by omega
      rw [h30]
      simp only [sleepsOf, geomList, List.cons_append]
      rw [ht]
    · exact ⟨geomList d (3 - a), by simp [sleepsOf]⟩

theorem append_eq_three_cases (a b c : ℚ) : ∀ (l t : List ℚ), l ++ t = [a, b, c] →
    l = [] ∨ l = [a] ∨ l = [a, b] ∨ l = [a, b, c] := by
  intro l
  rcases l with _ | ⟨x, _ | ⟨y, _ | ⟨z, _ | ⟨w, l'⟩⟩⟩⟩ <;> intro t h <;> simp_all

theorem process_token_request_ok (cfg : List ChainConfig) (req : Request)
    (env : Nat → AttemptEnv)
    (h : (cfg.find? (fun c => c.name == req.chain)).isSome = true) :
    process_token_request cfg req env = .ok (fundingTrace env) := by
  unfold process_token_request
  cases hf : cfg.find? (fun c => c.name == req.chain) with
  | none => rw [hf] at h; simp at h
  | some c => rfl

theorem addTokensGo_length (cfg : List ChainConfig) (envs : Nat → Nat → AttemptEnv) :
    ∀ reqs j, (addTokensGo cfg envs j reqs).length = reqs.length := by
  intro reqs
  induction reqs with
  | nil => intro j; rfl
  | cons r rest ih => intro j; simp [addTokensGo, ih]

theorem addTokensGo_getElem (cfg : List ChainConfig) (envs : Nat → Nat → AttemptEnv) :
    ∀ reqs j i, (addTokensGo cfg envs j reqs)[i]? =
      (reqs[i]?).map (fun r => process_token_request cfg r (envs (j + i))) := by
  intro reqs
  induction reqs with
  | nil => intro j i; simp [addTokensGo]
  | cons r rest ih =>
    intro j i
    cases i with
    | zero => simp [addTokensGo]
    | succ i =>
      simp only [addTokensGo, List.getElem?_cons_succ]
      rw [ih (j + 1) i]
      have h : j + 1 + i = j + (i + 1) := by omega
      rw [h]

theorem readyGo_iff (probe : Nat → CallOutcome) :
    ∀ fuel i, 30 - i ≤ fuel →
      (readyGo probe i fuel = true ↔ ∃ j, i ≤ j ∧ j < 30 ∧ probeOk (probe j) = true) := by
  intro fuel
  induction fuel with
  | zero =>
    intro i h
    constructor
    · intro hr; simp [readyGo] at hr
    · rintro ⟨j, hij, hj30, _⟩; omega
  | succ fuel ih =>
    intro i h
    simp only [readyGo]
    by_cases h60 : 2 * i < 60
    · rw [if_pos h60]
      by_cases hp : probeOk (probe i) = true
      · simp only [hp, if_true]
        constructor
        · intro _; exact ⟨i, le_refl i, by omega, hp⟩
        · intro _; trivial
      · simp only [hp, if_false, Bool.false_eq_true]
        rw [ih (i + 1) (by omega)]
        constructor
        · rintro ⟨j, hij, hj30, hpj⟩; exact ⟨j, by omega, hj30, hpj⟩
        · rintro ⟨j, hij, hj30, hpj⟩
          refine ⟨j, ?_, hj30, hpj⟩
          rcases Nat.eq_or_lt_of_le hij with rfl | hlt
          · exact absurd hpj hp
          · omega
    · rw [if_neg h60]
      constructor
      · intro hr; simp at hr
      · rintro ⟨j, hij, hj30, _⟩; omega

theorem check_token_balance_failed (res : CallOutcome)
    (h : queryFailed res = true) : check_token_balance res = 0 := by
  cases res with
  | raised => rfl
  | completed rc out err =>
    simp only [queryFailed, bne_iff_ne, ne_eq] at h
    simp [check_token_balance, h]

theorem check_eth_balance_failed (res : CallOutcome)
    (h : queryFailed res = true) : check_eth_balance res = none := by
  cases res with
  | raised => rfl
  | completed rc out err =>
    simp only [queryFailed, bne_iff_ne, ne_eq] at h
    simp [check_eth_balance, h]

theorem tokenLines_congr : ∀ (bal : List TokenBalance) (env env' : Nat → CallOutcome)
    (i : Nat), (∀ j, check_token_balance (env j) = check_token_balance (env' j)) →
    tokenLines bal env i = tokenLines bal env' i := by
  intro bal
  induction bal with
  | nil => intro env env' i _; rfl
  | cons tb rest ih =>
    intro env env' i h
    simp only [tokenLines, h i]
    rw [ih env env' (i + 1) h]

theorem digit_not_whitespace (c : Char) (h : c.isDigit = true) :
    c.isWhitespace = false := by
  simp [Char.isDigit] at h
  obtain ⟨h1, h2⟩ := h
  simp only [Char.isWhitespace, Bool.or_eq_false_iff, decide_eq_false_iff_not]
  refine ⟨⟨⟨?_, ?_⟩, ?_⟩, ?_⟩ <;> rintro rfl <;> simp_all

theorem dropWhile_all_false {α : Type} (p : α → Bool) :
    ∀ l : List α, (∀ c ∈ l, p c = false) → l.dropWhile p = l := by
  intro l h
  cases l with
  | nil => rfl
  | cons a t => simp [List.dropWhile_cons, h a (List.mem_cons_self a t)]

theorem strip_all_digits (l : List Char) (h : l.all Char.isDigit = true) :
    strip l = l := by
  rw [List.all_eq_true] at h
  have hws : ∀ c ∈ l, c.isWhitespace = false :=
    fun c hc => digit_not_whitespace c (h c hc)
  unfold strip
  rw [dropWhile_all_false _ l hws,
    dropWhile_all_false _ l.reverse (fun c hc => hws c (List.mem_reverse.mp hc)),
    List.reverse_reverse]

theorem contains_bracket_false (l : List Char) (h : l.all Char.isDigit = true) :
    l.contains '[' = false := by
  rw [List.all_eq_true] at h
  rw [Bool.eq_false_iff]
  intro hc
  have hmem : '[' ∈ l := by
    rw [List.contains_eq_any_beq] at hc
    rw [List.any_eq_true] at hc
    obtain ⟨c, hcl, hceq⟩ := hc
    rw [beq_iff_eq] at hceq
    rw [← hceq] at hcl
    exact hcl
  have := h '[' hmem
  simp at this

theorem check_token_balance_digits (l : List Char) (hne : l ≠ [])
    (hd : l.all Char.isDigit = true) :
    check_token_balance (.completed 0 (String.mk l) "") = (digitsVal l : Int) := by
  have hdata : (String.mk l).data = l := rfl
  have hstrip : strip l = l := strip_all_digits l hd
  have hbr : bracketStrip l = l := by
    unfold bracketStrip
    rw [contains_bracket_false l hd]
    simp
  have hpy : pyInt l = some (digitsVal l : Int) := by
    cases l with
    | nil => exact absurd rfl hne
    | cons c cs =>
      have hcd : c.isDigit = true := by
        rw [List.all_eq_true] at hd
        exact hd c (List.mem_cons_self c cs)
      have hcm : c ≠ '-' := by rintro rfl; simp at hcd
      have hcp : c ≠ '+' := by rintro rfl; simp at hcd
      have hdn : digitsNat (c :: cs) = some (digitsVal (c :: cs)) := by
        unfold digitsNat
        rw [if_pos ⟨List.cons_ne_nil c cs, hd⟩]
      simp [pyInt, hstrip, hcm, hcp, hdn]
  simp [check_token_balance, hstrip, hbr, hpy]

/-- Fixture: a two-chain configuration. -/
def cfgW : List ChainConfig :=
  [⟨"OP", "10", [], 4444⟩, ⟨"Base", "8453", [], 4445⟩]

/-- Fixture: a funding request for chain OP. -/
def reqW : Request := ⟨"0x9560e827af36c94d2ac33a39bce1fe78631088db", "OP",
  "10000000000000000000", "0xaabb"⟩

/-- Fixture: environment in which every impersonation call fails. -/
def envAllImpFail : Nat → AttemptEnv := fun _ => ⟨false, false, ""⟩

/-- C1: failure isolation. `add_tokens_by_address` returns unit;
it yields one outcome per request, each outcome being exactly that of
running the request's task alone (so no task's failure can change or
suppress a sibling's outcome); and every task whose chain lookup
succeeds finishes with an ordinary trace (`Except.ok`) — impersonation
failures, non-retryable transfer failures and exhausted retries are all
absorbed inside the retry loop and never raise out of the task. -/
theorem claim1_failure_isolation (cfg : List ChainConfig) (reqs : List Request)
    (envs : Nat → Nat → AttemptEnv) :
    (add_tokens_by_address cfg reqs envs).1 = () ∧
    (add_tokens_by_address cfg reqs envs).2.length = reqs.length ∧
    (∀ i, (add_tokens_by_address cfg reqs envs).2[i]? =
      (reqs[i]?).map (fun r => process_token_request cfg r (envs i))) ∧
    (∀ req env, (cfg.find? (fun c => c.name == req.chain)).isSome = true →
      process_token_request cfg req env = .ok (fundingTrace env)) := by
  refine ⟨rfl, addTokensGo_length cfg envs reqs 0, ?_, ?_⟩
  · intro i
    have h := addTokensGo_getElem cfg envs reqs 0 i
    simpa using h
  · exact fun req env h => process_token_request_ok cfg req env h

/-- Witness for C1 at a concrete configuration and environment. -/
theorem claim1_witness :
    process_token_request cfgW reqW envAllImpFail = .ok (fundingTrace envAllImpFail) :=
  (claim1_failure_isolation cfgW [reqW] (fun _ => envAllImpFail)).2.2.2
    reqW envAllImpFail (by decide)

/-- Fixture: impersonation fails on the first attempt, everything
succeeds on the second. -/
def envImpFailThenOk : Nat → AttemptEnv :=
  fun k => if k = 0 then ⟨false, true, ""⟩ else ⟨true, true, ""⟩

/-- C2 counterexample: when the impersonation call fails on attempt 0,
the task is NOT abandoned: it sleeps the backoff delay, retries, and
here succeeds on attempt 1 — a retry and a transfer occur after the
impersonation failure, contradicting the claimed immediate permanent
abandonment. -/
theorem claim2_counterexample :
    fundingTrace envImpFailThenOk =
      [Event.impersonate, Event.retryException 0, Event.sleep 2,
       Event.impersonate, Event.transfer, Event.success] ∧
    Event.sleep 2 ∈ fundingTrace envImpFailThenOk ∧
    Event.success ∈ fundingTrace envImpFailThenOk ∧
    countTransfers (fundingTrace envImpFailThenOk) = 1 := by decide

/-- C2 corrected: an impersonation failure submits no transfer on that
attempt, but is retried like a transient error: with the holder failing
on every attempt, the task impersonates 4 times, sleeps 2, 3 and 4.5
time units, submits no transfer at all, and only then logs the failure
as permanent; with a failure on attempt 0 only, the task sleeps once and
completes normally on attempt 1. -/
theorem claim2_amended :
    (∀ env : Nat → AttemptEnv, (∀ k, (env k).impersonateOk = false) →
      fundingTrace env =
        [Event.impersonate, Event.retryException 0, Event.sleep 2,
         Event.impersonate, Event.retryException 1, Event.sleep 3,
         Event.impersonate, Event.retryException 2, Event.sleep (9 / 2),
         Event.impersonate, Event.exhaustedException] ∧
      countTransfers (fundingTrace env) = 0) ∧
    (∀ env : Nat → AttemptEnv, (env 0).impersonateOk = false →
      (env 1).impersonateOk = true → (env 1).transferOk = true →
      fundingTrace env =
        [Event.impersonate, Event.retryException 0, Event.sleep 2,
         Event.impersonate, Event.transfer, Event.success]) := by
  constructor
  · intro env h
    have ht : fundingTrace env =
        [Event.impersonate, Event.retryException 0, Event.sleep 2,
         Event.impersonate, Event.retryException 1, Event.sleep 3,
         Event.impersonate, Event.retryException 2, Event.sleep (9 / 2),
         Event.impersonate, Event.exhaustedException] := by
      simp [fundingTrace, attemptGo, h]
      norm_num
    refine ⟨ht, ?_⟩
    rw [ht]
    decide
  · intro env h0 h1i h1t
    simp [fundingTrace, attemptGo, h0, h1i, h1t]

/-- Witness for C2's amended statement: the all-failures environment. -/
theorem claim2_amended_witness :
    fundingTrace envAllImpFail =
      [Event.impersonate, Event.retryException 0, Event.sleep 2,
       Event.impersonate, Event.retryException 1, Event.sleep 3,
       Event.impersonate, Event.retryException 2, Event.sleep (9 / 2),
       Event.impersonate, Event.exhaustedException] ∧
    countTransfers (fundingTrace envAllImpFail) = 0 :=
  claim2_amended.1 envAllImpFail (fun _ => rfl)

/-- Fixture: a configuration containing only chain OP. -/
def cfgOnlyOP : List ChainConfig := [⟨"OP", "10", [], 4444⟩]

/-- Fixture: a request naming the unconfigured chain Base. -/
def reqBase : Request := ⟨"0xtok", "Base", "5", "0xholder"⟩

/-- Fixture: a request naming the configured chain OP. -/
def reqOP : Request := ⟨"0xtok", "OP", "5", "0xholder"⟩

/-- Fixture: all external calls succeed. -/
def envsAllOk : Nat → Nat → AttemptEnv := fun _ _ => ⟨true, true, ""⟩

/-- C3 counterexample: a request naming an unknown chain does NOT abort
the run. With requests [Base (unknown), OP (known)], the orchestrator
runs to completion and returns unit: the bad task's `ValueError` is
caught at the pool and recorded, and the sibling OP task still runs and
succeeds. -/
theorem claim3_counterexample :
    add_tokens_by_address cfgOnlyOP [reqBase, reqOP] envsAllOk =
      ((), [Except.error "Chain Base not found in honey config",
            Except.ok [Event.impersonate, Event.transfer, Event.success]]) := by
  rfl

/-- C3 corrected: a request naming an unknown chain raises a
`ValueError` inside its own task — before any impersonation or transfer
for that task — which propagates to the pool, where it is caught and
logged; the orchestrator still returns normally with an outcome for
every request, and sibling tasks are unaffected. -/
theorem claim3_amended (cfg : List ChainConfig) (reqs : List Request)
    (envs : Nat → Nat → AttemptEnv) (i : Nat) (h : i < reqs.length)
    (hnone : cfg.find? (fun c => c.name == (reqs.get ⟨i, h⟩).chain) = none) :
    (add_tokens_by_address cfg reqs envs).2[i]? =
      some (Except.error ("Chain " ++ (reqs.get ⟨i, h⟩).chain ++
        " not found in honey config")) ∧
    (add_tokens_by_address cfg reqs envs).1 = () ∧
    (add_tokens_by_address cfg reqs envs).2.length = reqs.length := by
  refine ⟨?_, rfl, addTokensGo_length cfg envs reqs 0⟩
  have hg := addTokensGo_getElem cfg envs reqs 0 i
  have hreq : reqs[i]? = some (reqs.get ⟨i, h⟩) := List.getElem?_eq_getElem h
  rw [hreq] at hg
  have hp : process_token_request cfg (reqs.get ⟨i, h⟩) (envs (0 + i)) =
      Except.error ("Chain " ++ (reqs.get ⟨i, h⟩).chain ++ " not found in honey config") := by
    unfold process_token_request
    rw [hnone]
  show (addTokensGo cfg envs 0 reqs)[i]? = _
  rw [hg]
  simpa using hp

/-- Witness for C3's amended statement at a concrete configuration. -/
theorem claim3_amended_witness :
    (add_tokens_by_address cfgOnlyOP [reqBase] envsAllOk).2[0]? =
      some (Except.error ("Chain " ++ ([reqBase].get ⟨0, by decide⟩).chain ++
        " not found in honey config")) ∧
    (add_tokens_by_address cfgOnlyOP [reqBase] envsAllOk).1 = () ∧
    (add_tokens_by_address cfgOnlyOP [reqBase] envsAllOk).2.length = [reqBase].length :=
  claim3_amended cfgOnlyOP [reqBase] envsAllOk 0 (by decide) (by rfl)

/-- C4: retry policy. For every environment the retry loop submits at
most 4 transfers, and the delays it sleeps are an initial segment of the
schedule 2, 3, 4.5 (strictly increasing by the factor 1.5, starting at
2); when every attempt fails with a contention (underpriced) error the
loop runs exactly 4 transfer attempts through that schedule; and a first
failure whose stderr does not indicate the contention class ends the
task immediately, with one transfer and no retry. -/
theorem claim4_retry_policy :
    (∀ env : Nat → AttemptEnv, countTransfers (fundingTrace env) ≤ 4 ∧
      (sleepsOf (fundingTrace env) = [] ∨ sleepsOf (fundingTrace env) = [2] ∨
       sleepsOf (fundingTrace env) = [2, 3] ∨
       sleepsOf (fundingTrace env) = [2, 3, 9 / 2])) ∧
    (∀ env : Nat → AttemptEnv,
      (∀ k, (env k).impersonateOk = true ∧ (env k).transferOk = false ∧
        isUnderpriced (env k).transferStderr = true) →
      fundingTrace env =
        [Event.impersonate, Event.transfer, Event.retryUnderpriced 0, Event.sleep 2,
         Event.impersonate, Event.transfer, Event.retryUnderpriced 1, Event.sleep 3,
         Event.impersonate, Event.transfer, Event.retryUnderpriced 2, Event.sleep (9 / 2),
         Event.impersonate, Event.transfer, Event.exhaustedUnderpriced] ∧
      countTransfers (fundingTrace env) = 4) ∧
    (∀ env : Nat → AttemptEnv, (env 0).impersonateOk = true →
      (env 0).transferOk = false → isUnderpriced (env 0).transferStderr = false →
      fundingTrace env = [Event.impersonate, Event.transfer, Event.nonRetryable]) := by
  refine ⟨?_, ?_, ?_⟩
  · intro env
    refine ⟨countTransfers_attemptGo_le env 4 0 2, ?_⟩
    obtain ⟨t, ht⟩ := sleepsOf_attemptGo_sched env 4 0 2
    have hg : geomList 2 (3 - 0) = [2, 3, 9 / 2] := by
      simp [geomList]
      norm_num
    rw [hg] at ht
    exact append_eq_three_cases 2 3 (9 / 2) _ t ht
  · intro env h
    have ht : fundingTrace env =
        [Event.impersonate, Event.transfer, Event.retryUnderpriced 0, Event.sleep 2,
         Event.impersonate, Event.transfer, Event.retryUnderpriced 1, Event.sleep 3,
         Event.impersonate, Event.transfer, Event.retryUnderpriced 2, Event.sleep (9 / 2),
         Event.impersonate, Event.transfer, Event.exhaustedUnderpriced] := by
      simp [fundingTrace, attemptGo, (h 0).1, (h 0).2.1, (h 0).2.2,
        (h 1).1, (h 1).2.1, (h 1).2.2, (h 2).1, (h 2).2.1, (h 2).2.2,
        (h 3).1, (h 3).2.1, (h 3).2.2]
      norm_num
    refine ⟨ht, ?_⟩
    rw [ht]
    decide
  · intro env h1 h2 h3
    simp [fundingTrace, attemptGo, h1, h2, h3]

/-- Fixture: every transfer fails with the underpriced contention error. -/
def envAllUnderpriced : Nat → AttemptEnv :=
  fun _ => ⟨true, false, "server returned an error response: replacement transaction underpriced"⟩

/-- Witness for C4: the always-contended environment exercises the full
schedule. -/
theorem claim4_witness :
    fundingTrace envAllUnderpriced =
      [Event.impersonate, Event.transfer, Event.retryUnderpriced 0, Event.sleep 2,
       Event.impersonate, Event.transfer, Event.retryUnderpriced 1, Event.sleep 3,
       Event.impersonate, Event.transfer, Event.retryUnderpriced 2, Event.sleep (9 / 2),
       Event.impersonate, Event.transfer, Event.exhaustedUnderpriced] ∧
    countTransfers (fundingTrace envAllUnderpriced) = 4 :=
  claim4_retry_policy.2.1 envAllUnderpriced (fun _ => ⟨rfl, rfl,
    (by decide : isUnderpriced
      "server returned an error response: replacement transaction underpriced" = true)⟩)

/-- C5: for every starting port and raw chain list, the i-th configured
chain (0-indexed, in configured order) is assigned port P + i, and the
assigned ports are pairwise distinct. -/
theorem claim5_port_assignment (P : Nat) (raw : List RawChain) :
    (∀ i (h : i < (fromConfigChains P raw).length),
      ((fromConfigChains P raw).get ⟨i, h⟩).port = P + i) ∧
    ((fromConfigChains P raw).map ChainConfig.port).Nodup := by
  have hmap : (fromConfigChains P raw).map ChainConfig.port
      = List.range' P (fromConfigChains P raw).length :=
    buildChainsGo_ports P raw [] (by simp)
  constructor
  · intro i h
    have h3 : i < (List.range' P ((fromConfigChains P raw).length)).length := by
      simpa using h
    have e : ((fromConfigChains P raw).map ChainConfig.port)[i]? = some (P + i) := by
      rw [hmap, List.getElem?_eq_getElem h3]
      simp [List.getElem_range']
    rw [List.getElem?_map, List.getElem?_eq_getElem h] at e
    simp only [Option.map_some'] at e
    simpa using Option.some.inj e
  · rw [hmap]
    exact List.nodup_range' P (fromConfigChains P raw).length

/-- Fixture: a raw chain list as read from honey.yaml. -/
def rawW : List RawChain :=
  [⟨"OP", "10", []⟩, ⟨"Base", "8453", []⟩, ⟨"Lisk", "1135", []⟩]

/-- Witness for C5 at starting port 4444 and three chains. -/
theorem claim5_witness :
    ((fromConfigChains 4444 rawW).get
      ⟨2, (by decide : 2 < (fromConfigChains 4444 rawW).length)⟩).port = 4444 + 2 ∧
    ((fromConfigChains 4444 rawW).map ChainConfig.port).Nodup :=
  ⟨(claim5_port_assignment 4444 rawW).1 2 (by decide),
   (claim5_port_assignment 4444 rawW).2⟩

/-- C6: token-balance parsing. The annotated cast output parses to the
integer prefix before the bracket; any nonempty all-digit stdout parses
to the integer it denotes; and when parsing fails on the (possibly
bracket-stripped) stdout, the query returns 0 instead of raising. -/
theorem claim6_balance_parsing :
    check_token_balance (.completed 0 "1000000000000000000000 [1e21]" "") =
      1000000000000000000000 ∧
    (∀ l : List Char, l ≠ [] → l.all Char.isDigit = true →
      check_token_balance (.completed 0 (String.mk l) "") = (digitsVal l : Int)) ∧
    (∀ out err, pyInt (bracketStrip (strip out.data)) = none →
      check_token_balance (.completed 0 out err) = 0) := by
  refine ⟨by decide, ?_, ?_⟩
  · exact fun l h1 h2 => check_token_balance_digits l h1 h2
  · intro out err h
    simp [check_token_balance, h]

/-- Witness for C6: a bare digit string, and a malformed string. -/
theorem claim6_witness :
    check_token_balance (.completed 0 (String.mk "12345".data) "") =
      (digitsVal "12345".data : Int) ∧
    check_token_balance (.completed 0 "abc" "") = 0 :=
  ⟨claim6_balance_parsing.2.1 "12345".data (by decide) (by decide),
   claim6_balance_parsing.2.2 "abc" "" (by decide)⟩

/-- C7: deterministic reporting. For any chain set and environments, and
any completion order (any permutation of the per-chain rows), the
emitted report is sorted by chain name; and when the configured chain
names are pairwise distinct, the emitted report is exactly the one
obtained from the submission order — a function of the configuration
alone, independent of completion timing. -/
theorem claim7_deterministic_report (chains : List ChainConfig)
    (ethEnv : Nat → CallOutcome) (tokEnv : Nat → Nat → CallOutcome)
    (completed : List ChainRes)
    (hperm : completed.Perm (chain_results chains ethEnv tokEnv)) :
    List.Sorted resLe (aggregateEmit completed) ∧
    (((chain_results chains ethEnv tokEnv).map ChainRes.name).Nodup →
      aggregateEmit completed = aggregateEmit (chain_results chains ethEnv tokEnv)) := by
  constructor
  · exact List.sorted_insertionSort resLe completed
  · intro hnodup
    apply sorted_perm_nodup_eq
    · exact (List.perm_insertionSort resLe completed).trans
        (hperm.trans (List.perm_insertionSort resLe _).symm)
    · exact List.sorted_insertionSort resLe completed
    · exact List.sorted_insertionSort resLe _
    · have hp : ((aggregateEmit completed).map ChainRes.name).Perm
          ((chain_results chains ethEnv tokEnv).map ChainRes.name) :=
        ((List.perm_insertionSort resLe completed).trans hperm).map ChainRes.name
      exact hp.nodup_iff.mpr hnodup

/-- Fixture: chains Base, OP, Lisk in configured order. -/
def chainsW : List ChainConfig :=
  [⟨"Base", "8453", [], 4444⟩, ⟨"OP", "10", [], 4445⟩, ⟨"Lisk", "1135", [], 4446⟩]

/-- Fixture: every balance query raises. -/
def ethEnvW : Nat → CallOutcome := fun _ => .raised

/-- Fixture: every token query raises. -/
def tokEnvW : Nat → Nat → CallOutcome := fun _ _ => .raised

/-- Fixture: the rows of `chainsW` in a scrambled completion order
(OP first, then Lisk, then Base). -/
def completedW : List ChainRes :=
  [⟨"OP", "Failed", ""⟩, ⟨"Lisk", "Failed", ""⟩, ⟨"Base", "Failed", ""⟩]

/-- Witness for C7: over chains Base, OP, Lisk completing in a scrambled
order, the emitted report is sorted, equals the submission-order report,
and lists the chains exactly as Base, Lisk, OP. -/
theorem claim7_witness :
    List.Sorted resLe (aggregateEmit completedW) ∧
    aggregateEmit completedW = aggregateEmit (chain_results chainsW ethEnvW tokEnvW) ∧
    (aggregateEmit completedW).map ChainRes.name = ["Base", "Lisk", "OP"] := by
  have h := claim7_deterministic_report chainsW ethEnvW tokEnvW completedW (by decide)
  exact ⟨h.1, h.2 (by decide), by decide⟩

/-- C8: readiness timeout. The probe loop succeeds exactly when some
probe among the 30 admitted by the 60-second deadline at the fixed
2-second spacing succeeds; if no probe ever succeeds, readiness is
false and — whatever phase an interrupt might later have hit — the run
terminates the child, exits with code 1, and never reaches the
balance-checking phase. -/
theorem claim8_readiness_timeout (probe : Nat → CallOutcome) :
    (check_supersim_ready probe = true ↔
      ∃ i, i < 30 ∧ probeOk (probe i) = true) ∧
    ((∀ i, probeOk (probe i) = false) →
      check_supersim_ready probe = false ∧
      ∀ intr, mainRun probe intr = [RunEvent.terminateChild, RunEvent.exit 1] ∧
        RunEvent.phaseBalance ∉ mainRun probe intr) := by
  have hiff := readyGo_iff probe 31 0 (by omega)
  constructor
  · unfold check_supersim_ready
    rw [hiff]
    constructor
    · rintro ⟨j, _, hj, hp⟩; exact ⟨j, hj, hp⟩
    · rintro ⟨j, hj, hp⟩; exact ⟨j, Nat.zero_le j, hj, hp⟩
  · intro hall
    have hfalse : check_supersim_ready probe = false := by
      rw [Bool.eq_false_iff]
      intro htrue
      unfold check_supersim_ready at htrue
      rw [hiff] at htrue
      obtain ⟨j, _, _, hp⟩ := htrue
      rw [hall j] at hp
      exact Bool.false_ne_true hp
    refine ⟨hfalse, fun intr => ⟨?_, ?_⟩⟩
    · simp [mainRun, hfalse]
    · simp [mainRun, hfalse]

/-- Witness for C8: every probe raises, so the run times out. -/
theorem claim8_witness :
    check_supersim_ready (fun _ => CallOutcome.raised) = false ∧
    mainRun (fun _ => CallOutcome.raised) none =
      [RunEvent.terminateChild, RunEvent.exit 1] :=
  ⟨((claim8_readiness_timeout (fun _ => CallOutcome.raised)).2 (fun _ => rfl)).1,
   (((claim8_readiness_timeout (fun _ => CallOutcome.raised)).2 (fun _ => rfl)).2 none).1⟩

/-- Fixture: the first readiness probe succeeds. -/
def probeOkW : Nat → CallOutcome := fun _ => .completed 0 "1" ""

/-- C9 counterexample: an interrupt arriving during the funding phase
escapes uncaught — the child simulator process is neither sent a
termination signal nor waited on, contradicting the claim that every
exit path terminates and waits on the child. -/
theorem claim9_counterexample :
    mainRun probeOkW (some MainPhase.funding) =
      [RunEvent.phaseFunding, RunEvent.uncaught] ∧
    RunEvent.terminateChild ∉ mainRun probeOkW (some MainPhase.funding) ∧
    RunEvent.waitChild ∉ mainRun probeOkW (some MainPhase.funding) := by decide

/-- C9 corrected: the child is terminated and waited on only when the
interrupt arrives during the final wait on the child; an interrupt
during the wallet, funding or balance-checking phases escapes uncaught
with the child neither terminated nor waited on; and on the
readiness-timeout path the child is terminated but not waited on. -/
theorem claim9_amended (probe : Nat → CallOutcome)
    (hready : check_supersim_ready probe = true) :
    mainRun probe (some MainPhase.waiting) =
      [RunEvent.phaseFunding, RunEvent.phaseBalance, RunEvent.terminateChild,
       RunEvent.waitChild, RunEvent.exit 0] ∧
    (∀ p, p ≠ MainPhase.waiting →
      RunEvent.terminateChild ∉ mainRun probe (some p) ∧
      RunEvent.waitChild ∉ mainRun probe (some p)) ∧
    (∀ probeB : Nat → CallOutcome, check_supersim_ready probeB = false →
      mainRun probeB none = [RunEvent.terminateChild, RunEvent.exit 1] ∧
      RunEvent.waitChild ∉ mainRun probeB none) := by
  refine ⟨by simp [mainRun, hready], ?_, ?_⟩
  · intro p hp
    cases p with
    | wallet => constructor <;> simp [mainRun, hready]
    | funding => constructor <;> simp [mainRun, hready]
    | balance => constructor <;> simp [mainRun, hready]
    | waiting => exact absurd rfl hp
  · intro probeB hB
    constructor <;> simp [mainRun, hB]

/-- Witness for C9's amended statement with a ready simulator. -/
theorem claim9_amended_witness :
    mainRun probeOkW (some MainPhase.waiting) =
      [RunEvent.phaseFunding, RunEvent.phaseBalance, RunEvent.terminateChild,
       RunEvent.waitChild, RunEvent.exit 0] :=
  (claim9_amended probeOkW (by decide)).1

/-- C10: a failed token query (raised call or non-zero exit) yields 0;
replacing any failed token queries of a chain by successful queries
returning "0" leaves the chain's report row unchanged, so the failure is
indistinguishable from a genuinely zero balance; by contrast a failed
native-balance query is rendered as the distinct string "Failed", which
no integer rendering equals. -/
theorem claim10_failed_query_reporting :
    (∀ res, queryFailed res = true → check_token_balance res = 0) ∧
    (∀ chain ethRes (tokRes tokResB : Nat → CallOutcome),
      (∀ j, tokResB j = tokRes j ∨
        (queryFailed (tokRes j) = true ∧ tokResB j = CallOutcome.completed 0 "0" "")) →
      check_chain_balances chain ethRes tokRes = check_chain_balances chain ethRes tokResB) ∧
    (∀ chain tokRes ethRes, queryFailed ethRes = true →
      (check_chain_balances chain ethRes tokRes).eth = "Failed") ∧
    (∀ b : Int, ¬ toString b ++ " ETH" = "Failed") := by
  refine ⟨check_token_balance_failed, ?_, ?_, ?_⟩
  · intro chain ethRes tokRes tokResB h
    have hz : ∀ j, check_token_balance (tokRes j) = check_token_balance (tokResB j) := by
      intro j
      rcases h j with he | ⟨hf, he⟩
      · rw [he]
      · rw [he, check_token_balance_failed _ hf]
        decide
    unfold check_chain_balances
    rw [tokenLines_congr chain.balance tokRes tokResB 0 hz]
  · intro chain tokRes ethRes h
    simp [check_chain_balances, check_eth_balance_failed _ h]
  · intro b h
    have hd := congrArg String.data h
    rw [String.data_append] at hd
    have hsp : ' ' ∈ (toString b).data ++ " ETH".data :=
      List.mem_append_right _ (by decide)
    rw [hd] at hsp
    exact absurd hsp (by decide)

/-- Fixture: a chain with one configured token. -/
def chainTokW : ChainConfig :=
  ⟨"OP", "10", [⟨"USDC", "0xusdc", 1000000, "0xholder"⟩], 4444⟩

/-- Witness for C10: a raised token query yields 0; a chain whose token
query raised produces the same row as one whose query returned "0"; a
raised native query renders as "Failed". -/
theorem claim10_witness :
    check_token_balance CallOutcome.raised = 0 ∧
    check_chain_balances chainTokW CallOutcome.raised (fun _ => CallOutcome.raised) =
      check_chain_balances chainTokW CallOutcome.raised
        (fun _ => CallOutcome.completed 0 "0" "") ∧
    (check_chain_balances chainTokW CallOutcome.raised
      (fun _ => CallOutcome.raised)).eth = "Failed" :=
  ⟨claim10_failed_query_reporting.1 CallOutcome.raised rfl,
   claim10_failed_query_reporting.2.1 chainTokW CallOutcome.raised
     (fun _ => CallOutcome.raised) (fun _ => CallOutcome.completed 0 "0" "")
     (fun _ => Or.inr ⟨rfl, rfl⟩),
   claim10_failed_query_reporting.2.2.1 chainTokW
     (fun _ => CallOutcome.raised) CallOutcome.raised rfl⟩

end Honey
